import Mathlib

/-!
# Verification of the Canadian loan amortization calculator

Shallow embedding of the calculator's core modules:

* the Canadian statutory-holiday calculator (source file with
  `getCanadianHolidays`, `calculateEaster`, `isCanadianHoliday`),
* the business-day adjuster (`isWeekend`, `isBusinessDay`,
  `getNextBusinessDay`, `adjustPaymentDate`, `getDaysBetween`),
* the amortization engine (`calculatePaymentAmount`,
  `calculateAmortizationSchedule`) and the validation schema.

Modelling conventions:

* A JavaScript `Date` produced by `new Date(y, m, d)` is represented by its
  day number (days since 1970-01-01) in the proleptic Gregorian calendar,
  `ℤ`-valued.  `Date.getDay` is the weekday (`0` = Sunday), day-level
  arithmetic (`setDate`, `getTime` differences at day granularity) is
  integer arithmetic on day numbers.  `new Date(y, m, d)` with an
  out-of-range `d` normalizes exactly as the linear-in-`d` conversion
  formula does, matching ECMAScript `MakeDay`.
* `getFullYear`/`getMonth`/`getDate` are modelled by an executable inverse
  conversion from day numbers to civil triples (`yearOf`, `monthOf`,
  `dayOf`).  The conversion pair is verified below (`daysFromCivil_yearOf`).
* JavaScript numbers are modelled by `ℚ` (exact real-valued arithmetic).
  `Math.pow`, whose exponent can be fractional, is abstracted as an
  explicit function parameter `powf : ℚ → ℚ → ℚ` of the engine; theorems
  that depend on properties of real exponentiation state them as
  hypotheses on `powf` that real `pow` satisfies (for example
  `powf 1 q = 1`, or agreement with iterated multiplication on natural
  exponents).  `ratPow` below is a concrete instance used to evaluate the
  engine at inputs whose exponents are natural numbers, where it agrees
  exactly with real exponentiation.
* The JavaScript remainder operator (sign of the dividend) is `jsMod`;
  `Math.floor` of a quotient of integers is `Int.ediv` (= `/` on `ℤ`).
-/

/-- JavaScript remainder operator `a % n` (result has the sign of the
dividend, for a positive modulus). -/
def jsMod (a n : ℤ) : ℤ := if 0 ≤ a then a % n else -((-a) % n)

/-- Day number (days since 1970-01-01) of the proleptic Gregorian civil
date `y-m-d` (month `1`-based); Hinnant's `days_from_civil` algorithm,
modelling ECMAScript `MakeDay`.  Linear in `d`, so out-of-range days
normalize exactly as JavaScript `Date` does. -/
def daysFromCivil (y m d : ℤ) : ℤ :=
  let yAdj := if m ≤ 2 then y - 1 else y
  let era := yAdj / 400
  let yoe := yAdj - era * 400
  let mp := if 2 < m then m - 3 else m + 9
  let doy := (153 * mp + 2) / 5 + d - 1
  let doe := yoe * 365 + yoe / 4 - yoe / 100 + doy
  era * 146097 + doe - 719468

/-- Era index of a day number (eras are 400-year blocks of 146097 days,
era 0 starting 0000-03-01). -/
def hinEra (z : ℤ) : ℤ := (z + 719468) / 146097

/-- Day-of-era, in `[0, 146096]`. -/
def hinDoe (z : ℤ) : ℤ := z + 719468 - 146097 * hinEra z

/-- Century index within the era (`0..3`); the last century of an era has
36525 days, the others 36524. -/
def hinCen (z : ℤ) : ℤ := min 3 (hinDoe z / 36524)

/-- Day within the century. -/
def hinR (z : ℤ) : ℤ := hinDoe z - 36524 * hinCen z

/-- Four-year-block index within the century (`0..24`); blocks have 1461
days except the last block of a non-final century (1460). -/
def hinQuad (z : ℤ) : ℤ := min 24 (hinR z / 1461)

/-- Day within the four-year block. -/
def hinS (z : ℤ) : ℤ := hinR z - 1461 * hinQuad z

/-- Year index within the four-year block (`0..3`); the fourth year is the
leap year. -/
def hinYk (z : ℤ) : ℤ := min 3 (hinS z / 365)

/-- Year of era, in `[0, 399]`. -/
def hinYoe (z : ℤ) : ℤ := 100 * hinCen z + 4 * hinQuad z + hinYk z

/-- Day of the (March-based) year, in `[0, 365]`. -/
def hinDoy (z : ℤ) : ℤ := hinS z - 365 * hinYk z

/-- Shifted month index (`0` = March .. `11` = February). -/
def hinMp (z : ℤ) : ℤ := (5 * hinDoy z + 2) / 153

/-- Day of month, in `[1, 31]`. -/
def hinDd (z : ℤ) : ℤ := hinDoy z - (153 * hinMp z + 2) / 5 + 1

/-- Civil month (`1..12`). -/
def hinMm (z : ℤ) : ℤ := if hinMp z < 10 then hinMp z + 3 else hinMp z - 9

/-- Civil year of a day number: models JavaScript `Date.getFullYear`. -/
def yearOf (z : ℤ) : ℤ :=
  (if hinMm z ≤ 2 then 1 else 0) + hinYoe z + 400 * hinEra z

/-- Civil month (`1`-based) of a day number: models `Date.getMonth() + 1`. -/
def monthOf (z : ℤ) : ℤ := hinMm z

/-- Civil day-of-month of a day number: models `Date.getDate`. -/
def dayOf (z : ℤ) : ℤ := hinDd z

/-- Weekday of a day number (`0` = Sunday .. `6` = Saturday); day 0
(1970-01-01) is a Thursday.  Models JavaScript `Date.getDay`. -/
def getDay (z : ℤ) : ℤ := (z + 4) % 7

/-- Day number of March 1 of the (March-based) year `n`, relative to the
epoch offset: the year part of `daysFromCivil`. -/
def gregDays (n : ℤ) : ℤ :=
  let era := n / 400
  let yoe := n - era * 400
  era * 146097 + yoe * 365 + yoe / 4 - yoe / 100

/-! ## Holiday calculator (source: canadian-holidays module) -/

/-- The quantity `h + l - 7*m + 114` of the anonymous-Gauss Easter
algorithm, from which the source derives both the month
(`Math.floor(x / 31)`) and the day (`x % 31 + 1`).  JavaScript `%` is
`jsMod` and `Math.floor` of an integer quotient is integer division. -/
def easterX (year : ℤ) : ℤ :=
  let a := jsMod year 19
  let b := year / 100
  let c := jsMod year 100
  let d := b / 4
  let e := jsMod b 4
  let f := (b + 8) / 25
  let g := (b - f + 1) / 3
  let h := jsMod (19 * a + b - d - g + 15) 30
  let i := c / 4
  let k := jsMod c 4
  let l := jsMod (32 + 2 * e + 2 * i - h - k) 7
  let m := (a + 11 * h + 22 * l) / 451
  h + l - 7 * m + 114

/-- `calculateEaster` of the source: the returned `Date(year, month-1, day)`
is the day number of the civil date `year / month / day`. -/
def calculateEaster (year : ℤ) : ℤ :=
  daysFromCivil year (easterX year / 31) (jsMod (easterX year) 31 + 1)

/-- Canadian statutory holidays of a year, in the source's push order.
Index 7 is the Labour Day entry. -/
def getCanadianHolidays (year : ℤ) : List ℤ :=
  let newYears := daysFromCivil year 1 1
  let feb1 := daysFromCivil year 2 1
  let familyDay :=
    (if getDay feb1 = 1 then feb1 else daysFromCivil year 2 (8 - getDay feb1)) + 14
  let easter := calculateEaster year
  let goodFriday := easter - 2
  let easterMonday := easter + 1
  let may25 := daysFromCivil year 5 25
  let victoriaDay := may25 - jsMod (getDay may25 + 6) 7
  let jul1 := daysFromCivil year 7 1
  let canadaDay := if getDay jul1 = 0 then daysFromCivil year 7 2 else jul1
  let aug1 := daysFromCivil year 8 1
  let civicHoliday := if getDay aug1 = 1 then aug1 else daysFromCivil year 8 (8 - getDay aug1)
  let sep1 := daysFromCivil year 9 1
  let labourDay := if getDay sep1 = 1 then sep1 else daysFromCivil year 9 (8 - getDay sep1)
  let oct1 := daysFromCivil year 10 1
  let thanksgiving :=
    (if getDay oct1 = 1 then oct1 else daysFromCivil year 10 (8 - getDay oct1)) + 7
  let remembranceDay := daysFromCivil year 11 11
  let dec25 := daysFromCivil year 12 25
  let christmas := if getDay dec25 = 0 then daysFromCivil year 12 26 else dec25
  let dec26 := daysFromCivil year 12 26
  let boxingDay :=
    if getDay dec26 = 0 then daysFromCivil year 12 27
    else if getDay dec26 = 6 then daysFromCivil year 12 28
    else dec26
  [newYears, familyDay, goodFriday, easterMonday, victoriaDay, canadaDay,
   civicHoliday, labourDay, thanksgiving, remembranceDay, christmas, boxingDay]

/-- The source's date-equality test: same year, month and day-of-month. -/
def sameDate (a b : ℤ) : Bool :=
  yearOf a == yearOf b && monthOf a == monthOf b && dayOf a == dayOf b

/-- `isCanadianHoliday` of the source: membership (by date equality) in
the holiday list of the date's own year. -/
def isCanadianHoliday (date : ℤ) : Bool :=
  (getCanadianHolidays (yearOf date)).any fun holiday => sameDate holiday date

/-! ## Business-day adjuster (source: business-days module) -/

/-- Saturday or Sunday. -/
def isWeekend (date : ℤ) : Bool := getDay date == 0 || getDay date == 6

/-- A weekday that is not a Canadian statutory holiday. -/
def isBusinessDay (date : ℤ) : Bool := !isWeekend date && !isCanadianHoliday date

/-- Fueled model of the source's unbounded while loop that scans forward
one day at a time for a business day.  The loop itself has no bound; the
termination theorem below shows fuel 1000 always suffices, so the fueled
model computes exactly the loop's result. -/
def findBDay : ℕ → ℤ → Option ℤ
  | 0, _ => none
  | fuel + 1, z => if isBusinessDay z then some z else findBDay fuel (z + 1)

/-- `getNextBusinessDay` of the source: scan from the next day. The
default value is dead code by the totality theorem below. -/
def getNextBusinessDay (date : ℤ) : ℤ := (findBDay 1000 (date + 1)).getD (date + 1)

/-- `adjustPaymentDate` of the source. -/
def adjustPaymentDate (date : ℤ) : ℤ :=
  if isBusinessDay date then date else getNextBusinessDay date

/-- `getDaysBetween` of the source: `Math.ceil` of the millisecond
difference divided by a day of milliseconds.  Dates at day granularity
are whole days apart, so this equals the day-number difference. -/
def getDaysBetween (startDate endDate : ℤ) : ℤ :=
  ⌈(((endDate - startDate : ℤ) : ℚ) * 86400000) / (1000 * 3600 * 24)⌉

/-! ## Amortization engine (source: loan-calculations module and shared
schema)

JavaScript numeric arithmetic is modelled exactly over `ℚ`; `Math.pow` is
the explicit parameter `powf` (see the header).  The source's single
schedule loop produces the row list and the final accumulator values; it
is split here into `amortRows` (the emitted rows) and `amortFinal` (the
accumulators at loop exit), both mirroring the loop body literally. -/

/-- Payment type of the validation schema; accepted but never read by the
engine. -/
inductive PaymentType
  | periodEnd
  | periodBeginning
deriving DecidableEq, Inhabited

/-- `LoanInput` of the shared schema (dates as day numbers). -/
structure LoanInput where
  loanAmount : ℚ
  annualInterestRate : ℚ
  rateTermMonths : ℕ
  amortizationMonths : ℕ
  paymentsPerYear : ℕ
  startDate : ℤ
  firstPaymentDate : ℤ
  rateTermMaturityDate : ℤ
  compoundingFrequency : ℕ
  paymentType : PaymentType
deriving DecidableEq, Inhabited

/-- `PaymentRow` of the shared schema. -/
structure PaymentRow where
  paymentNumber : ℕ
  paymentDate : ℤ
  beginningBalance : ℚ
  scheduledPayment : ℚ
  principalPayment : ℚ
  interestPayment : ℚ
  endingBalance : ℚ
  cumulativeInterest : ℚ
  daysBetweenPayments : ℤ
deriving DecidableEq, Inhabited

/-- `LoanSummary` of the shared schema. -/
structure LoanSummary where
  monthlyPayment : ℚ
  totalInterest : ℚ
  totalPayments : ℚ
  rateTermInterest : ℚ
  rateTermPrincipal : ℚ
  numberOfPayments : ℕ
deriving DecidableEq, Inhabited

/-- `calculatePaymentAmount` of the source, with `Math.pow` abstracted as
`powf`. -/
def calculatePaymentAmount (powf : ℚ → ℚ → ℚ) (principal annualRate : ℚ)
    (totalPayments paymentsPerYear : ℚ) (compoundingFrequency : ℚ := 2) : ℚ :=
  let effectiveRate :=
    powf (1 + annualRate / (100 * compoundingFrequency))
      (compoundingFrequency / paymentsPerYear) - 1
  if effectiveRate = 0 then principal / totalPayments
  else
    principal * (effectiveRate * powf (1 + effectiveRate) totalPayments) /
      (powf (1 + effectiveRate) totalPayments - 1)

/-- `totalPayments = Math.floor((amortizationMonths / 12) * paymentsPerYear)`. -/
def totalPaymentsOf (input : LoanInput) : ℕ :=
  (⌊((input.amortizationMonths : ℚ) / 12) * (input.paymentsPerYear : ℚ)⌋).toNat

/-- Loop-invariant data of the schedule loop. -/
structure AmortCtx where
  monthlyPayment : ℚ
  annualInterestRate : ℚ
  firstPaymentDate : ℤ
  paymentFrequencyDays : ℤ
  rateTermMaturity : ℤ
  total : ℕ
deriving DecidableEq, Inhabited

/-- Mutable accumulators of the schedule loop. -/
structure AmortState where
  currentBalance : ℚ
  cumulativeInterest : ℚ
  previousPaymentDate : ℤ
  rateTermInterest : ℚ
  rateTermPrincipal : ℚ
deriving DecidableEq, Inhabited

/-- Unadjusted date of payment `i`:
`firstPaymentDate + (i - 1) * paymentFrequencyDays` days. -/
def scheduledDate (ctx : AmortCtx) (i : ℕ) : ℤ :=
  ctx.firstPaymentDate + ((i : ℤ) - 1) * ctx.paymentFrequencyDays

/-- Body of the schedule loop: the row emitted at index `i` from state
`st`, mirroring the source statement for statement. -/
def amortStep (ctx : AmortCtx) (i : ℕ) (st : AmortState) : PaymentRow :=
  let adjustedPaymentDate := adjustPaymentDate (scheduledDate ctx i)
  let daysBetween := getDaysBetween st.previousPaymentDate adjustedPaymentDate
  let dailyRate := ctx.annualInterestRate / 100 / 365.25
  let interestPayment := st.currentBalance * dailyRate * (daysBetween : ℚ)
  let principalPayment :=
    if i = ctx.total ∨ ctx.monthlyPayment - interestPayment > st.currentBalance
    then st.currentBalance
    else ctx.monthlyPayment - interestPayment
  { paymentNumber := i
    paymentDate := adjustedPaymentDate
    beginningBalance := st.currentBalance
    scheduledPayment := principalPayment + interestPayment
    principalPayment := principalPayment
    interestPayment := interestPayment
    endingBalance := max 0 (st.currentBalance - principalPayment)
    cumulativeInterest := st.cumulativeInterest + interestPayment
    daysBetweenPayments := daysBetween }

/-- Accumulator update of one loop iteration. -/
def stepState (ctx : AmortCtx) (i : ℕ) (st : AmortState) : AmortState :=
  let row := amortStep ctx i st
  { currentBalance := row.endingBalance
    cumulativeInterest := row.cumulativeInterest
    previousPaymentDate := row.paymentDate
    rateTermInterest := st.rateTermInterest +
      (if row.paymentDate ≤ ctx.rateTermMaturity then row.interestPayment else 0)
    rateTermPrincipal := st.rateTermPrincipal +
      (if row.paymentDate ≤ ctx.rateTermMaturity then row.principalPayment else 0) }

/-- Rows emitted by the loop from index `i` with `remaining` iterations
left; the loop breaks right after pushing a row whose ending balance is
at most 0.01. -/
def amortRows (ctx : AmortCtx) : ℕ → ℕ → AmortState → List PaymentRow
  | 0, _, _ => []
  | remaining + 1, i, st =>
      let row := amortStep ctx i st
      if row.endingBalance ≤ 0.01 then [row]
      else row :: amortRows ctx remaining (i + 1) (stepState ctx i st)

/-- Accumulator values at loop exit. -/
def amortFinal (ctx : AmortCtx) : ℕ → ℕ → AmortState → AmortState
  | 0, _, st => st
  | remaining + 1, i, st =>
      let row := amortStep ctx i st
      if row.endingBalance ≤ 0.01 then stepState ctx i st
      else amortFinal ctx remaining (i + 1) (stepState ctx i st)

/-- Loop context from the input: the fixed payment via
`calculatePaymentAmount` and `paymentFrequencyDays = Math.round(365.25 /
paymentsPerYear)` (JavaScript `Math.round` is round-half-up, which is
`round` on `ℚ` for positive arguments). -/
def mkCtx (powf : ℚ → ℚ → ℚ) (input : LoanInput) : AmortCtx :=
  { monthlyPayment := calculatePaymentAmount powf input.loanAmount
      input.annualInterestRate (totalPaymentsOf input : ℚ)
      (input.paymentsPerYear : ℚ) (input.compoundingFrequency : ℚ)
    annualInterestRate := input.annualInterestRate
    firstPaymentDate := input.firstPaymentDate
    paymentFrequencyDays := round ((365.25 : ℚ) / (input.paymentsPerYear : ℚ))
    rateTermMaturity := input.rateTermMaturityDate
    total := totalPaymentsOf input }

/-- Initial accumulators. -/
def initState (input : LoanInput) : AmortState :=
  { currentBalance := input.loanAmount
    cumulativeInterest := 0
    previousPaymentDate := input.startDate
    rateTermInterest := 0
    rateTermPrincipal := 0 }

/-- `calculateAmortizationSchedule` of the source. -/
def calculateAmortizationSchedule (powf : ℚ → ℚ → ℚ) (input : LoanInput) :
    List PaymentRow × LoanSummary :=
  let ctx := mkCtx powf input
  let schedule := amortRows ctx ctx.total 1 (initState input)
  let final := amortFinal ctx ctx.total 1 (initState input)
  (schedule,
   { monthlyPayment := ctx.monthlyPayment
     totalInterest := final.cumulativeInterest
     totalPayments := (schedule.map PaymentRow.scheduledPayment).sum
     rateTermInterest := final.rateTermInterest
     rateTermPrincipal := final.rateTermPrincipal
     numberOfPayments := schedule.length })

/-- The validation ranges of the shared schema (`loanInputSchema`) plus
its refinement rule on the dates. -/
def ValidLoanInput (input : LoanInput) : Prop :=
  1000 ≤ input.loanAmount ∧ input.loanAmount ≤ 100000000 ∧
  0.01 ≤ input.annualInterestRate ∧ input.annualInterestRate ≤ 50 ∧
  1 ≤ input.rateTermMonths ∧ input.rateTermMonths ≤ 600 ∧
  1 ≤ input.amortizationMonths ∧ input.amortizationMonths ≤ 600 ∧
  1 ≤ input.paymentsPerYear ∧ input.paymentsPerYear ≤ 365 ∧
  1 ≤ input.compoundingFrequency ∧ input.compoundingFrequency ≤ 365 ∧
  input.startDate ≤ input.firstPaymentDate ∧
  input.startDate < input.rateTermMaturityDate

instance (input : LoanInput) : Decidable (ValidLoanInput input) := by
  unfold ValidLoanInput
  infer_instance

/-- Concrete stand-in for `Math.pow` used to evaluate the engine: exact
exponentiation for natural-number-valued exponents (where JavaScript's
`Math.pow` is exact real exponentiation of rationals), junk value 1
elsewhere.  It satisfies the `powf` hypotheses used by the theorems:
`ratPow 1 q = 1` and agreement with iterated multiplication on natural
exponents. -/
def ratPow (x q : ℚ) : ℚ :=
  if q.den = 1 ∧ 0 ≤ q.num then x ^ q.num.toNat else 1

/-- Effective per-payment-period rate as computed by
`calculatePaymentAmount` from a loan input. -/
def effectiveRateOf (powf : ℚ → ℚ → ℚ) (input : LoanInput) : ℚ :=
  powf (1 + input.annualInterestRate / (100 * (input.compoundingFrequency : ℚ)))
    ((input.compoundingFrequency : ℚ) / (input.paymentsPerYear : ℚ)) - 1

/-! ## Claims -/

/-- The Easter algorithm exactly as the specification words it: the
documented modular-arithmetic sequence with mathematical mod (`%` on `ℤ`,
nonnegative remainder) and floor division.  For comparison with the
source's `calculateEaster` (refinement check for claim C4). -/
def meeusEaster (y : ℤ) : ℤ :=
  let a := y % 19
  let b := y / 100
  let c := y % 100
  let d := b / 4
  let e := b % 4
  let f := (b + 8) / 25
  let g := (b - f + 1) / 3
  let h := (19 * a + b - d - g + 15) % 30
  let i := c / 4
  let k := c % 4
  let l := (32 + 2 * e + 2 * i - h - k) % 7
  let m := (a + 11 * h + 22 * l) / 451
  daysFromCivil y ((h + l - 7 * m + 114) / 31) ((h + l - 7 * m + 114) % 31 + 1)

/-- Invariants of the generated schedule, for claim C1: consecutive
beginning/ending balances chain; payment dates are non-decreasing; the
schedule has either exactly the configured number of rows or fewer, ending
(at the first and only row with ending balance at most 0.01) as soon as
the balance is essentially paid off; and a row's ending balance does not
exceed its beginning balance whenever that row's principal payment is
non-negative. -/
def scheduleProps (s : List PaymentRow) (total : ℕ) : Prop :=
  (∀ (j : ℕ) (r1 r2 : PaymentRow), s[j]? = some r1 → s[j + 1]? = some r2 →
    r2.beginningBalance = r1.endingBalance) ∧
  (∀ (j : ℕ) (r1 r2 : PaymentRow), s[j]? = some r1 → s[j + 1]? = some r2 →
    r1.paymentDate ≤ r2.paymentDate) ∧
  (s.length = total ∨ (s.length < total ∧
    ∀ row ∈ s.getLast?, row.endingBalance ≤ 0.01)) ∧
  (∀ (j : ℕ) (row : PaymentRow), j + 1 < s.length → s[j]? = some row →
    0.01 < row.endingBalance) ∧
  (∀ (j : ℕ) (row : PaymentRow), s[j]? = some row → 0 ≤ row.principalPayment →
    row.endingBalance ≤ row.beginningBalance)

/-- A valid loan input on which the engine produces a first row with
negative principal payment and increasing balance: the first payment date
lies six years after the start date, so six years of day-count interest
accrue on the first row while the fixed payment is computed from a
two-payment annuity. -/
def cxInput : LoanInput :=
  { loanAmount := 1000
    annualInterestRate := 50
    rateTermMonths := 12
    amortizationMonths := 24
    paymentsPerYear := 1
    startDate := daysFromCivil 2024 1 15
    firstPaymentDate := daysFromCivil 2030 1 15
    rateTermMaturityDate := daysFromCivil 2025 1 15
    compoundingFrequency := 2
    paymentType := PaymentType.periodEnd }

/-- A representative valid loan input (25-year amortization, monthly
payments) for instantiating the universally quantified claims. -/
def wInput : LoanInput :=
  { loanAmount := 100000
    annualInterestRate := 5
    rateTermMonths := 60
    amortizationMonths := 300
    paymentsPerYear := 12
    startDate := daysFromCivil 2024 1 15
    firstPaymentDate := daysFromCivil 2024 2 15
    rateTermMaturityDate := daysFromCivil 2029 1 15
    compoundingFrequency := 2
    paymentType := PaymentType.periodEnd }

/-- A one-payment loan input (12 months amortization, annual payments)
whose schedule is trivially non-empty. -/
def w8Input : LoanInput :=
  { loanAmount := 5000
    annualInterestRate := 5
    rateTermMonths := 12
    amortizationMonths := 12
    paymentsPerYear := 1
    startDate := daysFromCivil 2024 1 15
    firstPaymentDate := daysFromCivil 2024 2 15
    rateTermMaturityDate := daysFromCivil 2025 1 15
    compoundingFrequency := 2
    paymentType := PaymentType.periodEnd }

/-- Base input for the dead-field claim. -/
def w10a : LoanInput :=
  { loanAmount := 100000
    annualInterestRate := 5
    rateTermMonths := 60
    amortizationMonths := 300
    paymentsPerYear := 12
    startDate := daysFromCivil 2024 1 15
    firstPaymentDate := daysFromCivil 2024 2 15
    rateTermMaturityDate := daysFromCivil 2029 1 15
    compoundingFrequency := 2
    paymentType := PaymentType.periodEnd }

/-- Same as `w10a` except `paymentType`. -/
def w10b : LoanInput :=
  { loanAmount := 100000
    annualInterestRate := 5
    rateTermMonths := 60
    amortizationMonths := 300
    paymentsPerYear := 12
    startDate := daysFromCivil 2024 1 15
    firstPaymentDate := daysFromCivil 2024 2 15
    rateTermMaturityDate := daysFromCivil 2029 1 15
    compoundingFrequency := 2
    paymentType := PaymentType.periodBeginning }

/-- Same as `w10a` except `rateTermMonths`. -/
def w10c : LoanInput :=
  { loanAmount := 100000
    annualInterestRate := 5
    rateTermMonths := 120
    amortizationMonths := 300
    paymentsPerYear := 12
    startDate := daysFromCivil 2024 1 15
    firstPaymentDate := daysFromCivil 2024 2 15
    rateTermMaturityDate := daysFromCivil 2029 1 15
    compoundingFrequency := 2
    paymentType := PaymentType.periodEnd }

theorem jsMod_bounds (a n : ℤ) (hn : 0 < n) : -n < jsMod a n ∧ jsMod a n < n := by
  unfold jsMod
  split_ifs with h
  · have h1 := Int.emod_nonneg a (by omega : n ≠ 0)
    have h2 := Int.emod_lt_of_pos a hn
    omega
  · have h1 := Int.emod_nonneg (-a) (by omega : n ≠ 0)
    have h2 := Int.emod_lt_of_pos (-a) hn
    omega

theorem jsMod_of_nonneg (a n : ℤ) (ha : 0 ≤ a) : jsMod a n = a % n := by
  simp [jsMod, ha]

theorem hinDoe_bounds (z : ℤ) :
    0 ≤ hinDoe z ∧ hinDoe z ≤ 146096 ∧ z = 146097 * hinEra z + hinDoe z - 719468 := by
  simp only [hinDoe, hinEra]
  omega

theorem hinCen_bounds (z : ℤ) :
    0 ≤ hinCen z ∧ hinCen z ≤ 3 ∧
    hinDoe z = 36524 * hinCen z + hinR z ∧
    0 ≤ hinR z ∧ hinR z ≤ 36524 ∧ (hinCen z < 3 → hinR z ≤ 36523) := by
  obtain ⟨h1, h2, h3⟩ := hinDoe_bounds z
  simp only [hinCen, hinR]
  omega

theorem hinQuad_bounds (z : ℤ) :
    0 ≤ hinQuad z ∧ hinQuad z ≤ 24 ∧
    hinR z = 1461 * hinQuad z + hinS z ∧
    0 ≤ hinS z ∧ hinS z ≤ 1460 := by
  obtain ⟨h1, h2, h3, h4, h5, h6⟩ := hinCen_bounds z
  simp only [hinQuad, hinS]
  omega

theorem hinYk_bounds (z : ℤ) :
    0 ≤ hinYk z ∧ hinYk z ≤ 3 ∧
    hinS z = 365 * hinYk z + hinDoy z ∧
    0 ≤ hinDoy z ∧ hinDoy z ≤ 365 := by
  obtain ⟨h1, h2, h3, h4, h5⟩ := hinQuad_bounds z
  simp only [hinYk, hinDoy]
  omega

theorem hinYoe_bounds (z : ℤ) :
    0 ≤ hinYoe z ∧ hinYoe z ≤ 399 ∧
    hinYoe z / 4 = 25 * hinCen z + hinQuad z ∧
    hinYoe z / 100 = hinCen z ∧
    365 * hinYoe z + hinYoe z / 4 - hinYoe z / 100 + hinDoy z = hinDoe z := by
  obtain ⟨hc1, hc2, hc3, hc4, hc5, hc6⟩ := hinCen_bounds z
  obtain ⟨hq1, hq2, hq3, hq4, hq5⟩ := hinQuad_bounds z
  obtain ⟨hk1, hk2, hk3, hk4, hk5⟩ := hinYk_bounds z
  have hd4 : (100 * hinCen z + 4 * hinQuad z + hinYk z) / 4 =
      25 * hinCen z + hinQuad z := by omega
  have hd100 : (100 * hinCen z + 4 * hinQuad z + hinYk z) / 100 = hinCen z := by omega
  simp only [hinYoe]
  omega

theorem hinMp_bounds (z : ℤ) :
    0 ≤ hinMp z ∧ hinMp z ≤ 11 ∧
    (153 * hinMp z + 2) / 5 + hinDd z - 1 = hinDoy z ∧
    1 ≤ hinDd z ∧ hinDd z ≤ 31 := by
  obtain ⟨hk1, hk2, hk3, hk4, hk5⟩ := hinYk_bounds z
  simp only [hinMp, hinDd]
  omega

theorem daysFromCivil_mk (e y mp dd m Y : ℤ)
    (hy1 : 0 ≤ y) (hy2 : y ≤ 399)
    (hm : m = if mp < 10 then mp + 3 else mp - 9)
    (hmp1 : 0 ≤ mp) (hmp2 : mp ≤ 11)
    (hY : Y = (if m ≤ 2 then 1 else 0) + y + 400 * e) :
    daysFromCivil Y m dd =
      146097 * e + (365 * y + y / 4 - y / 100 + ((153 * mp + 2) / 5 + dd - 1))
        - 719468 := by
  subst hm hY
  by_cases hc : mp < 10
  · rw [if_pos hc]
    have h2 : ¬(mp + 3 ≤ 2) := by omega
    simp only [daysFromCivil, if_neg h2, if_pos (show 2 < mp + 3 by omega)]
    have e0 : 0 + y + 400 * e = y + 400 * e := by ring
    rw [e0]
    have e1 : (y + 400 * e) / 400 = e := by omega
    rw [e1]
    have e2 : y + 400 * e - e * 400 = y := by ring
    rw [e2]
    have e3 : mp + 3 - 3 = mp := by ring
    rw [e3]
    omega
  · rw [if_neg hc]
    have h2 : mp - 9 ≤ 2 := by omega
    simp only [daysFromCivil, if_pos h2, if_neg (show ¬(2 < mp - 9) by omega)]
    have e0 : 1 + y + 400 * e - 1 = y + 400 * e := by ring
    rw [e0]
    have e1 : (y + 400 * e) / 400 = e := by omega
    rw [e1]
    have e2 : y + 400 * e - e * 400 = y := by ring
    rw [e2]
    have e3 : mp - 9 + 9 = mp := by ring
    rw [e3]
    omega

/-- The civil-triple extraction is a right inverse of `daysFromCivil`:
converting the extracted year, month and day back to a day number returns
the original day number.  In particular the extraction is injective. -/
theorem daysFromCivil_yearOf (z : ℤ) :
    daysFromCivil (yearOf z) (monthOf z) (dayOf z) = z := by
  obtain ⟨hd1, hd2, hd3⟩ := hinDoe_bounds z
  obtain ⟨hy1, hy2, hy3, hy4, hy5⟩ := hinYoe_bounds z
  obtain ⟨hm1, hm2, hm3, hm4, hm5⟩ := hinMp_bounds z
  show daysFromCivil (yearOf z) (monthOf z) (hinDd z) = z
  rw [daysFromCivil_mk (hinEra z) (hinYoe z) (hinMp z) (hinDd z) (monthOf z)
    (yearOf z) hy1 hy2 rfl hm1 hm2 rfl]
  omega

theorem monthOf_range (z : ℤ) :
    1 ≤ monthOf z ∧ monthOf z ≤ 12 ∧ 1 ≤ dayOf z ∧ dayOf z ≤ 31 := by
  obtain ⟨hm1, hm2, hm3, hm4, hm5⟩ := hinMp_bounds z
  simp only [monthOf, dayOf, hinMm]
  split_ifs <;> omega

theorem daysFromCivil_eq (y m d : ℤ) :
    daysFromCivil y m d =
      gregDays (if m ≤ 2 then y - 1 else y) +
        (153 * (if 2 < m then m - 3 else m + 9) + 2) / 5 + d - 1 - 719468 := by
  simp only [daysFromCivil, gregDays]
  split_ifs <;> omega

theorem gregDays_step (n : ℤ) :
    gregDays n + 365 ≤ gregDays (n + 1) ∧ gregDays (n + 1) ≤ gregDays n + 366 := by
  simp only [gregDays]
  have h : (n + 1) / 400 = n / 400 ∨ (n + 1) / 400 = n / 400 + 1 := by omega
  rcases h with h | h <;> rw [h] <;> omega

theorem gregDays_mono {a b : ℤ} (hab : a ≤ b) : gregDays a ≤ gregDays b := by
  refine Int.le_induction (P := fun x => gregDays a ≤ gregDays x) ?_ ?_ b hab
  · exact le_refl _
  · intro n hn ih
    have h := gregDays_step n
    omega

/-- Any date with a month in `1..12` and a day in `1..31` lies between
January 1 of its year and January 1 of the following year. -/
theorem daysFromCivil_inYear (y m d : ℤ) (hm1 : 1 ≤ m) (hm2 : m ≤ 12)
    (hd1 : 1 ≤ d) (hd2 : d ≤ 31) :
    daysFromCivil y 1 1 ≤ daysFromCivil y m d ∧
    daysFromCivil y m d < daysFromCivil (y + 1) 1 1 := by
  rw [daysFromCivil_eq y 1 1, daysFromCivil_eq y m d, daysFromCivil_eq (y + 1) 1 1]
  have hstep := gregDays_step (y - 1)
  have hy : y - 1 + 1 = y := by ring
  rw [hy] at hstep
  rw [show y + 1 - 1 = y from by ring]
  split_ifs <;> omega

theorem jan1_mono {a b : ℤ} (hab : a ≤ b) :
    daysFromCivil a 1 1 ≤ daysFromCivil b 1 1 := by
  rw [daysFromCivil_eq, daysFromCivil_eq]
  have := gregDays_mono (show a - 1 ≤ b - 1 by omega)
  split_ifs <;> omega

/-- The civil-triple extraction is also a left inverse on valid triples,
at the level of the year: the year of the day number of `y-m-d` is `y`.
This models that JavaScript `getFullYear` returns the construction year. -/
theorem yearOf_daysFromCivil (y m d : ℤ) (hm1 : 1 ≤ m) (hm2 : m ≤ 12)
    (hd1 : 1 ≤ d) (hd2 : d ≤ 31) :
    yearOf (daysFromCivil y m d) = y := by
  have hrt := daysFromCivil_yearOf (daysFromCivil y m d)
  obtain ⟨ha1, ha2, ha3, ha4⟩ := monthOf_range (daysFromCivil y m d)
  have h1 := daysFromCivil_inYear (yearOf (daysFromCivil y m d))
    (monthOf (daysFromCivil y m d)) (dayOf (daysFromCivil y m d)) ha1 ha2 ha3 ha4
  rw [hrt] at h1
  have h2 := daysFromCivil_inYear y m d hm1 hm2 hd1 hd2
  by_contra hne
  rcases lt_or_gt_of_ne hne with hlt | hgt
  · have := jan1_mono (show yearOf (daysFromCivil y m d) + 1 ≤ y by omega)
    omega
  · have := jan1_mono (show y + 1 ≤ yearOf (daysFromCivil y m d) by omega)
    omega

theorem easterX_bounds_aux (a h l m x : ℤ)
    (ha1 : -19 < a) (ha2 : a < 19) (hh1 : -30 < h) (hh2 : h < 30)
    (hl1 : -7 < l) (hl2 : l < 7)
    (hm : m = (a + 11 * h + 22 * l) / 451)
    (hx : x = h + l - 7 * m + 114) : 72 ≤ x ∧ x ≤ 163 := by
  omega

theorem easterX_bounds (y : ℤ) : 72 ≤ easterX y ∧ easterX y ≤ 163 := by
  simp only [easterX]
  refine easterX_bounds_aux _ _ _ _ _ ?_ ?_ ?_ ?_ ?_ ?_ rfl rfl
  · exact (jsMod_bounds y 19 (by norm_num)).1
  · exact (jsMod_bounds y 19 (by norm_num)).2
  · exact (jsMod_bounds _ 30 (by norm_num)).1
  · exact (jsMod_bounds _ 30 (by norm_num)).2
  · exact (jsMod_bounds _ 7 (by norm_num)).1
  · exact (jsMod_bounds _ 7 (by norm_num)).2

/-- The Easter month computed by the source always lies in `2..5` and the
day in `1..31` (for real years ≥ 1583 the month is in fact March or
April; the wider bound holds for every integer input and is what the
termination argument needs). -/
theorem calculateEaster_bounds (y : ℤ) :
    2 ≤ easterX y / 31 ∧ easterX y / 31 ≤ 5 ∧
    1 ≤ jsMod (easterX y) 31 + 1 ∧ jsMod (easterX y) 31 + 1 ≤ 31 := by
  obtain ⟨hx1, hx2⟩ := easterX_bounds y
  have hj : jsMod (easterX y) 31 = easterX y % 31 :=
    jsMod_of_nonneg _ _ (by omega)
  omega

theorem sameDate_true_iff (a b : ℤ) : sameDate a b = true ↔ a = b := by
  unfold sameDate
  simp only [Bool.and_eq_true, beq_iff_eq]
  constructor
  · rintro ⟨⟨hy, hm⟩, hd⟩
    have ha := daysFromCivil_yearOf a
    have hb := daysFromCivil_yearOf b
    rw [hy, hm, hd] at ha
    rw [← ha, hb]
  · rintro rfl
    exact ⟨⟨rfl, rfl⟩, rfl⟩

theorem isCanadianHoliday_true_iff (z : ℤ) :
    isCanadianHoliday z = true ↔ z ∈ getCanadianHolidays (yearOf z) := by
  unfold isCanadianHoliday
  simp only [List.any_eq_true, sameDate_true_iff]
  constructor
  · rintro ⟨h, hmem, rfl⟩
    exact hmem
  · intro h
    exact ⟨z, h, rfl⟩

theorem getDaysBetween_eq (s e : ℤ) : getDaysBetween s e = e - s := by
  unfold getDaysBetween
  have h : (((e - s : ℤ) : ℚ) * 86400000) / (1000 * 3600 * 24) = ((e - s : ℤ) : ℚ) := by
    norm_num
  rw [h, Int.ceil_intCast]

theorem getDay_bounds (z : ℤ) : 0 ≤ getDay z ∧ getDay z < 7 := by
  unfold getDay
  omega

theorem jan_lin (y a b : ℤ) :
    daysFromCivil y 1 a - daysFromCivil y 1 b = a - b := by
  rw [daysFromCivil_eq, daysFromCivil_eq]
  omega

/-- Every January day from the 2nd on is strictly more than 6 days before
any same-year date with month at least 2 and a positive day-of-month. -/
theorem janLB (y mo da j : ℤ) (hmo : 2 ≤ mo) (hda : 1 ≤ da)
    (hj2 : 2 ≤ j) (hj4 : j ≤ 4) :
    daysFromCivil y 1 j + 6 < daysFromCivil y mo da := by
  rw [daysFromCivil_eq y 1 j, daysFromCivil_eq y mo da]
  have hstep := gregDays_step (y - 1)
  rw [show y - 1 + 1 = y from by ring] at hstep
  split_ifs <;> omega

/-- No entry of a year's holiday list is a January day in `2..4` of that
year: every entry other than New Year's Day falls in month 2 or later. -/
theorem jan_not_mem_holidays (y j : ℤ) (hj2 : 2 ≤ j) (hj4 : j ≤ 4) :
    daysFromCivil y 1 j ∉ getCanadianHolidays y := by
  intro hmem
  simp only [getCanadianHolidays, List.mem_cons, List.not_mem_nil, or_false] at hmem
  have hlin := jan_lin y j 1
  rcases hmem with h | h | h | h | h | h | h | h | h | h | h | h
  · omega
  · split_ifs at h with hw
    · have := janLB y 2 1 j (by norm_num) (by norm_num) hj2 hj4
      omega
    · have hWb := getDay_bounds (daysFromCivil y 2 1)
      have := janLB y 2 (8 - getDay (daysFromCivil y 2 1)) j (by norm_num)
        (by omega) hj2 hj4
      omega
  · unfold calculateEaster at h
    have hb := calculateEaster_bounds y
    have := janLB y (easterX y / 31) (jsMod (easterX y) 31 + 1) j (by omega)
      (by omega) hj2 hj4
    omega
  · unfold calculateEaster at h
    have hb := calculateEaster_bounds y
    have := janLB y (easterX y / 31) (jsMod (easterX y) 31 + 1) j (by omega)
      (by omega) hj2 hj4
    omega
  · have hWb := getDay_bounds (daysFromCivil y 5 25)
    have hv : jsMod (getDay (daysFromCivil y 5 25) + 6) 7 =
        (getDay (daysFromCivil y 5 25) + 6) % 7 :=
      jsMod_of_nonneg _ _ (by omega)
    have := janLB y 5 25 j (by norm_num) (by norm_num) hj2 hj4
    omega
  · split_ifs at h with hw
    · have := janLB y 7 2 j (by norm_num) (by norm_num) hj2 hj4
      omega
    · have := janLB y 7 1 j (by norm_num) (by norm_num) hj2 hj4
      omega
  · split_ifs at h with hw
    · have := janLB y 8 1 j (by norm_num) (by norm_num) hj2 hj4
      omega
    · have hWb := getDay_bounds (daysFromCivil y 8 1)
      have := janLB y 8 (8 - getDay (daysFromCivil y 8 1)) j (by norm_num)
        (by omega) hj2 hj4
      omega
  · split_ifs at h with hw
    · have := janLB y 9 1 j (by norm_num) (by norm_num) hj2 hj4
      omega
    · have hWb := getDay_bounds (daysFromCivil y 9 1)
      have := janLB y 9 (8 - getDay (daysFromCivil y 9 1)) j (by norm_num)
        (by omega) hj2 hj4
      omega
  · split_ifs at h with hw
    · have := janLB y 10 1 j (by norm_num) (by norm_num) hj2 hj4
      omega
    · have hWb := getDay_bounds (daysFromCivil y 10 1)
      have := janLB y 10 (8 - getDay (daysFromCivil y 10 1)) j (by norm_num)
        (by omega) hj2 hj4
      omega
  · have := janLB y 11 11 j (by norm_num) (by norm_num) hj2 hj4
    omega
  · split_ifs at h with hw
    · have := janLB y 12 26 j (by norm_num) (by norm_num) hj2 hj4
      omega
    · have := janLB y 12 25 j (by norm_num) (by norm_num) hj2 hj4
      omega
  · split_ifs at h with hw hw2
    · have := janLB y 12 27 j (by norm_num) (by norm_num) hj2 hj4
      omega
    · have := janLB y 12 28 j (by norm_num) (by norm_num) hj2 hj4
      omega
    · have := janLB y 12 26 j (by norm_num) (by norm_num) hj2 hj4
      omega

theorem jan_isBusinessDay (y j : ℤ) (hj2 : 2 ≤ j) (hj4 : j ≤ 4)
    (hw : isWeekend (daysFromCivil y 1 j) = false) :
    isBusinessDay (daysFromCivil y 1 j) = true := by
  have hy : yearOf (daysFromCivil y 1 j) = y :=
    yearOf_daysFromCivil y 1 j (by norm_num) (by norm_num) (by omega) (by omega)
  have hiff := isCanadianHoliday_true_iff (daysFromCivil y 1 j)
  rw [hy] at hiff
  have hh : isCanadianHoliday (daysFromCivil y 1 j) = false :=
    Bool.eq_false_iff.mpr fun hca => jan_not_mem_holidays y j hj2 hj4 (hiff.1 hca)
  unfold isBusinessDay
  rw [hw, hh]
  rfl

theorem isWeekend_false_of (z : ℤ) (h0 : getDay z ≠ 0) (h6 : getDay z ≠ 6) :
    isWeekend z = false := by
  simp [isWeekend, h0, h6]

theorem exists_jan_bday (y : ℤ) :
    ∃ j : ℤ, 2 ≤ j ∧ j ≤ 4 ∧ isBusinessDay (daysFromCivil y 1 j) = true := by
  have h3 : daysFromCivil y 1 3 = daysFromCivil y 1 2 + 1 := by
    have := jan_lin y 3 2
    omega
  have h4 : daysFromCivil y 1 4 = daysFromCivil y 1 2 + 2 := by
    have := jan_lin y 4 2
    omega
  by_cases h0 : getDay (daysFromCivil y 1 2) = 0
  · refine ⟨3, by norm_num, by norm_num,
      jan_isBusinessDay y 3 (by norm_num) (by norm_num) ?_⟩
    refine isWeekend_false_of _ ?_ ?_ <;> rw [h3] <;>
      simp only [getDay] at h0 ⊢ <;> omega
  · by_cases h6 : getDay (daysFromCivil y 1 2) = 6
    · refine ⟨4, by norm_num, by norm_num,
        jan_isBusinessDay y 4 (by norm_num) (by norm_num) ?_⟩
      refine isWeekend_false_of _ ?_ ?_ <;> rw [h4] <;>
        simp only [getDay] at h6 ⊢ <;> omega
    · exact ⟨2, by norm_num, by norm_num,
        jan_isBusinessDay y 2 (by norm_num) (by norm_num)
          (isWeekend_false_of _ h0 h6)⟩

/-- Core termination fact: from any date, a business day exists within the
next 400 calendar days (a weekday in January 2-4 of the following civil
year qualifies: January beyond the 1st is holiday-free). -/
theorem exists_businessDay_near (z : ℤ) :
    ∃ k : ℕ, k ≤ 400 ∧ isBusinessDay (z + 1 + (k : ℤ)) = true := by
  obtain ⟨j, hj2, hj4, hbd⟩ := exists_jan_bday (yearOf z + 1)
  have hrt := daysFromCivil_yearOf z
  obtain ⟨hm1, hm2, hd1, hd2⟩ := monthOf_range z
  have hin := daysFromCivil_inYear (yearOf z) (monthOf z) (dayOf z) hm1 hm2 hd1 hd2
  rw [hrt] at hin
  have hTlin := jan_lin (yearOf z + 1) j 1
  have hj1step : daysFromCivil (yearOf z + 1) 1 1 ≤ daysFromCivil (yearOf z) 1 1 + 366 := by
    rw [daysFromCivil_eq, daysFromCivil_eq]
    have hst := gregDays_step (yearOf z - 1)
    rw [show yearOf z - 1 + 1 = yearOf z from by ring] at hst
    rw [show yearOf z + 1 - 1 = yearOf z from by ring]
    split_ifs <;> omega
  refine ⟨(daysFromCivil (yearOf z + 1) 1 j - z - 1).toNat, by omega, ?_⟩
  have heq : z + 1 + ((daysFromCivil (yearOf z + 1) 1 j - z - 1).toNat : ℤ) =
      daysFromCivil (yearOf z + 1) 1 j := by omega
  rw [heq]
  exact hbd

theorem findBDay_eq_some {fuel : ℕ} {z b : ℤ} (h : findBDay fuel z = some b) :
    isBusinessDay b = true ∧ z ≤ b ∧ b < z + fuel ∧
    ∀ w, z ≤ w → w < b → isBusinessDay w = false := by
  induction fuel generalizing z with
  | zero => simp [findBDay] at h
  | succ n ih =>
      rw [findBDay] at h
      by_cases hb : isBusinessDay z = true
      · rw [if_pos hb] at h
        injection h with h
        subst h
        exact ⟨hb, le_refl _, by omega, fun w hw1 hw2 => absurd hw1 (by omega)⟩
      · rw [if_neg hb] at h
        obtain ⟨h1, h2, h3, h4⟩ := ih h
        have hz : isBusinessDay z = false := by
          cases hq : isBusinessDay z
          · rfl
          · exact absurd hq hb
        refine ⟨h1, by omega, by push_cast; omega, fun w hw1 hw2 => ?_⟩
        rcases eq_or_lt_of_le hw1 with rfl | hlt
        · exact hz
        · exact h4 w (by omega) hw2

theorem findBDay_isSome_of (fuel : ℕ) (z : ℤ)
    (h : ∃ k : ℕ, k < fuel ∧ isBusinessDay (z + (k : ℤ)) = true) :
    ∃ b, findBDay fuel z = some b := by
  induction fuel generalizing z with
  | zero =>
      obtain ⟨k, hk, _⟩ := h
      omega
  | succ n ih =>
      rw [findBDay]
      by_cases hb : isBusinessDay z = true
      · rw [if_pos hb]
        exact ⟨z, rfl⟩
      · rw [if_neg hb]
        apply ih
        obtain ⟨k, hk, hbk⟩ := h
        rcases Nat.eq_zero_or_pos k with rfl | hkpos
        · rw [show z + ((0 : ℕ) : ℤ) = z from by norm_num] at hbk
          exact absurd hbk hb
        · refine ⟨k - 1, by omega, ?_⟩
          rw [show z + 1 + ((k - 1 : ℕ) : ℤ) = z + (k : ℤ) from by omega]
          exact hbk

theorem getNextBusinessDay_spec (z : ℤ) :
    findBDay 1000 (z + 1) = some (getNextBusinessDay z) ∧
    isBusinessDay (getNextBusinessDay z) = true ∧
    z < getNextBusinessDay z ∧
    ∀ w, z < w → w < getNextBusinessDay z → isBusinessDay w = false := by
  obtain ⟨k, hk, hbk⟩ := exists_businessDay_near z
  obtain ⟨b, hb⟩ := findBDay_isSome_of 1000 (z + 1) ⟨k, by omega, hbk⟩
  obtain ⟨h1, h2, h3, h4⟩ := findBDay_eq_some hb
  have hg : getNextBusinessDay z = b := by
    unfold getNextBusinessDay
    rw [hb]
    rfl
  rw [hg]
  exact ⟨hb, h1, by omega, fun w hw1 hw2 => h4 w (by omega) hw2⟩

theorem adjustPaymentDate_eq_of_bday {z : ℤ} (h : isBusinessDay z = true) :
    adjustPaymentDate z = z := by
  unfold adjustPaymentDate
  rw [if_pos h]

theorem adjustPaymentDate_bday (z : ℤ) :
    isBusinessDay (adjustPaymentDate z) = true := by
  unfold adjustPaymentDate
  split_ifs with h
  · exact h
  · exact (getNextBusinessDay_spec z).2.1

theorem adjustPaymentDate_ge (z : ℤ) : z ≤ adjustPaymentDate z := by
  unfold adjustPaymentDate
  split_ifs with h
  · exact le_refl _
  · exact le_of_lt (getNextBusinessDay_spec z).2.2.1

theorem adjustPaymentDate_min {z b : ℤ} (hb : isBusinessDay b = true)
    (hzb : z ≤ b) : adjustPaymentDate z ≤ b := by
  unfold adjustPaymentDate
  split_ifs with h
  · exact hzb
  · by_contra hlt
    push_neg at hlt
    have hzb2 : z < b := by
      rcases eq_or_lt_of_le hzb with rfl | h2
      · exact absurd hb (by simp [h])
      · exact h2
    have := (getNextBusinessDay_spec z).2.2.2 b hzb2 hlt
    rw [this] at hb
    exact Bool.false_ne_true hb

theorem adjustPaymentDate_mono {a b : ℤ} (hab : a ≤ b) :
    adjustPaymentDate a ≤ adjustPaymentDate b :=
  adjustPaymentDate_min (adjustPaymentDate_bday b)
    (le_trans hab (adjustPaymentDate_ge b))

theorem adjustPaymentDate_idem (z : ℤ) :
    adjustPaymentDate (adjustPaymentDate z) = adjustPaymentDate z :=
  adjustPaymentDate_eq_of_bday (adjustPaymentDate_bday z)

theorem ratPow_one (q : ℚ) : ratPow 1 q = 1 := by
  unfold ratPow
  split_ifs <;> simp

theorem ratPow_natCast (x : ℚ) (n : ℕ) : ratPow x (n : ℚ) = x ^ n := by
  unfold ratPow
  rw [if_pos]
  · norm_num
  · norm_num

/-! ## Schedule-loop lemmas -/

theorem amortStep_paymentNumber (ctx : AmortCtx) (i : ℕ) (st : AmortState) :
    (amortStep ctx i st).paymentNumber = i := rfl

theorem amortStep_paymentDate (ctx : AmortCtx) (i : ℕ) (st : AmortState) :
    (amortStep ctx i st).paymentDate = adjustPaymentDate (scheduledDate ctx i) := rfl

theorem amortStep_beginningBalance (ctx : AmortCtx) (i : ℕ) (st : AmortState) :
    (amortStep ctx i st).beginningBalance = st.currentBalance := rfl

theorem stepState_currentBalance (ctx : AmortCtx) (i : ℕ) (st : AmortState) :
    (stepState ctx i st).currentBalance = (amortStep ctx i st).endingBalance := rfl

theorem stepState_cumulativeInterest (ctx : AmortCtx) (i : ℕ) (st : AmortState) :
    (stepState ctx i st).cumulativeInterest =
      (amortStep ctx i st).cumulativeInterest := rfl

theorem stepState_previousPaymentDate (ctx : AmortCtx) (i : ℕ) (st : AmortState) :
    (stepState ctx i st).previousPaymentDate = (amortStep ctx i st).paymentDate := rfl

theorem scheduledDate_one (ctx : AmortCtx) : scheduledDate ctx 1 = ctx.firstPaymentDate := by
  simp [scheduledDate]

theorem scheduledDate_succ (ctx : AmortCtx) (i : ℕ) :
    scheduledDate ctx (i + 1) = scheduledDate ctx i + ctx.paymentFrequencyDays := by
  simp only [scheduledDate]
  push_cast
  ring

theorem amortRows_ne_nil (ctx : AmortCtx) (r i : ℕ) (st : AmortState) :
    amortRows ctx (r + 1) i st ≠ [] := by
  rw [amortRows]
  split_ifs <;> simp

theorem amortRows_zero (ctx : AmortCtx) (i : ℕ) (st : AmortState) :
    amortRows ctx 0 i st = [] := rfl

theorem amortRows_head (ctx : AmortCtx) (r i : ℕ) (st : AmortState)
    (row : PaymentRow) (h : (amortRows ctx r i st)[0]? = some row) :
    row = amortStep ctx i st := by
  cases r with
  | zero => simp [amortRows] at h
  | succ n =>
      rw [amortRows] at h
      split_ifs at h <;> simp_all

theorem amortRows_getElem_spec (ctx : AmortCtx) (r : ℕ) :
    ∀ (i : ℕ) (st : AmortState) (j : ℕ) (row : PaymentRow),
      (amortRows ctx r i st)[j]? = some row →
      row.paymentNumber = i + j ∧
      row.paymentDate = adjustPaymentDate (scheduledDate ctx (i + j)) := by
  induction r with
  | zero =>
      intro i st j row h
      simp [amortRows] at h
  | succ n ih =>
      intro i st j row h
      rw [amortRows] at h
      split_ifs at h with hb
      · cases j with
        | zero =>
            simp only [List.getElem?_cons_zero, Option.some.injEq] at h
            subst h
            exact ⟨rfl, rfl⟩
        | succ m => simp at h
      · cases j with
        | zero =>
            simp only [List.getElem?_cons_zero, Option.some.injEq] at h
            subst h
            exact ⟨rfl, rfl⟩
        | succ m =>
            rw [List.getElem?_cons_succ] at h
            obtain ⟨h1, h2⟩ := ih (i + 1) (stepState ctx i st) m row h
            constructor
            · omega
            · rw [h2]
              congr 1
              congr 1
              omega

theorem amortRows_chain (ctx : AmortCtx) (r : ℕ) :
    ∀ (i : ℕ) (st : AmortState) (j : ℕ) (r1 r2 : PaymentRow),
      (amortRows ctx r i st)[j]? = some r1 →
      (amortRows ctx r i st)[j + 1]? = some r2 →
      r2.beginningBalance = r1.endingBalance := by
  induction r with
  | zero =>
      intro i st j r1 r2 h1 h2
      simp [amortRows] at h1
  | succ n ih =>
      intro i st j r1 r2 h1 h2
      rw [amortRows] at h1 h2
      split_ifs at h1 h2 with hb
      · cases j <;> simp at h2
      · cases j with
        | zero =>
            simp only [List.getElem?_cons_zero, Option.some.injEq] at h1
            rw [List.getElem?_cons_succ] at h2
            have hhead := amortRows_head ctx n (i + 1) (stepState ctx i st) r2 h2
            subst h1
            rw [hhead, amortStep_beginningBalance, stepState_currentBalance]
        | succ m =>
            rw [List.getElem?_cons_succ] at h1 h2
            exact ih (i + 1) (stepState ctx i st) m r1 r2 h1 h2

theorem amortRows_shape (ctx : AmortCtx) (r : ℕ) :
    ∀ (i : ℕ) (st : AmortState),
      (amortRows ctx r i st).length ≤ r ∧
      ((amortRows ctx r i st).length < r →
        ∀ row ∈ (amortRows ctx r i st).getLast?, row.endingBalance ≤ 0.01) ∧
      (∀ j row, j + 1 < (amortRows ctx r i st).length →
        (amortRows ctx r i st)[j]? = some row → 0.01 < row.endingBalance) := by
  induction r with
  | zero =>
      intro i st
      refine ⟨by simp [amortRows], by simp [amortRows], ?_⟩
      intro j row hj h
      simp [amortRows] at h
  | succ n ih =>
      intro i st
      rw [amortRows]
      split_ifs with hb
      · refine ⟨by simp, ?_, ?_⟩
        · intro hlt row hrow
          simp only [List.getLast?_singleton, Option.mem_def, Option.some.injEq] at hrow
          subst hrow
          exact hb
        · intro j row hj h
          simp at hj
      · obtain ⟨ih1, ih2, ih3⟩ := ih (i + 1) (stepState ctx i st)
        refine ⟨by simpa using ih1, ?_, ?_⟩
        · intro hlt row hrow
          rcases hrest : amortRows ctx n (i + 1) (stepState ctx i st) with _ | ⟨a, l⟩
          · rw [hrest] at hlt
            simp only [List.length_cons, List.length_nil] at hlt
            cases n with
            | zero => omega
            | succ m =>
                exact absurd hrest (amortRows_ne_nil ctx m (i + 1) (stepState ctx i st))
          · rw [hrest] at hrow hlt
            rw [List.getLast?_cons_cons] at hrow
            have hlen : (amortRows ctx n (i + 1) (stepState ctx i st)).length < n := by
              rw [hrest]
              simp only [List.length_cons] at hlt ⊢
              omega
            refine ih2 hlen row ?_
            rw [hrest]
            exact hrow
        · intro j row hj h
          cases j with
          | zero =>
              simp only [List.getElem?_cons_zero, Option.some.injEq] at h
              subst h
              exact lt_of_not_le hb
          | succ m =>
              rw [List.getElem?_cons_succ] at h
              refine ih3 m row ?_ h
              simp only [List.length_cons] at hj
              omega

theorem amortFinal_cum (ctx : AmortCtx) (r : ℕ) :
    ∀ (i : ℕ) (st : AmortState) (row : PaymentRow),
      (amortRows ctx r i st).getLast? = some row →
      (amortFinal ctx r i st).cumulativeInterest = row.cumulativeInterest := by
  induction r with
  | zero =>
      intro i st row h
      simp [amortRows] at h
  | succ n ih =>
      intro i st row h
      rw [amortRows] at h
      rw [amortFinal]
      split_ifs at h ⊢ with hb
      · simp only [List.getLast?_singleton, Option.some.injEq] at h
        subst h
        rfl
      · rcases hrest : amortRows ctx n (i + 1) (stepState ctx i st) with _ | ⟨a, l⟩
        · have hn : n = 0 := by
            cases n with
            | zero => rfl
            | succ m =>
                exact absurd hrest (amortRows_ne_nil ctx m (i + 1) (stepState ctx i st))
          subst hn
          rw [hrest] at h
          simp only [List.getLast?_singleton, Option.some.injEq] at h
          subst h
          rfl
        · rw [hrest] at h
          rw [List.getLast?_cons_cons] at h
          refine ih (i + 1) (stepState ctx i st) row ?_
          rw [hrest]
          exact h

theorem amortStep_endingBalance_nonneg (ctx : AmortCtx) (i : ℕ) (st : AmortState) :
    0 ≤ (amortStep ctx i st).endingBalance :=
  le_max_left 0 _

theorem amortStep_inv (ctx : AmortCtx) (i : ℕ) (st : AmortState)
    (hrate : 0 ≤ ctx.annualInterestRate)
    (hbal : 0 ≤ st.currentBalance)
    (hprev : st.previousPaymentDate ≤ adjustPaymentDate (scheduledDate ctx i)) :
    0 ≤ (amortStep ctx i st).beginningBalance ∧
    0 ≤ (amortStep ctx i st).interestPayment ∧
    ((amortStep ctx i st).interestPayment ≤ ctx.monthlyPayment →
      0 ≤ (amortStep ctx i st).principalPayment) ∧
    (0 ≤ (amortStep ctx i st).principalPayment →
      (amortStep ctx i st).endingBalance ≤ (amortStep ctx i st).beginningBalance) := by
  have hdb : (0 : ℤ) ≤
      getDaysBetween st.previousPaymentDate (adjustPaymentDate (scheduledDate ctx i)) := by
    rw [getDaysBetween_eq]
    omega
  have hdr : 0 ≤ ctx.annualInterestRate / 100 / 365.25 :=
    div_nonneg (div_nonneg hrate (by norm_num)) (by norm_num)
  have hint : 0 ≤ st.currentBalance * (ctx.annualInterestRate / 100 / 365.25) *
      ((getDaysBetween st.previousPaymentDate
        (adjustPaymentDate (scheduledDate ctx i)) : ℤ) : ℚ) :=
    mul_nonneg (mul_nonneg hbal hdr) (by exact_mod_cast hdb)
  simp only [amortStep]
  refine ⟨hbal, hint, ?_, ?_⟩
  · intro hle
    split_ifs with hcond
    · exact hbal
    · linarith
  · split_ifs with hcond
    · intro hpp
      exact max_le hbal (by linarith)
    · intro hpp
      exact max_le hbal (by linarith)

theorem amortRows_inv (ctx : AmortCtx)
    (hrate : 0 ≤ ctx.annualInterestRate) (hfreq : 0 ≤ ctx.paymentFrequencyDays)
    (r : ℕ) :
    ∀ (i : ℕ) (st : AmortState), 0 ≤ st.currentBalance →
      st.previousPaymentDate ≤ adjustPaymentDate (scheduledDate ctx i) →
      ∀ (j : ℕ) (row : PaymentRow), (amortRows ctx r i st)[j]? = some row →
        0 ≤ row.beginningBalance ∧ 0 ≤ row.interestPayment ∧
        (row.interestPayment ≤ ctx.monthlyPayment → 0 ≤ row.principalPayment) ∧
        (0 ≤ row.principalPayment → row.endingBalance ≤ row.beginningBalance) := by
  induction r with
  | zero =>
      intro i st _ _ j row h
      simp [amortRows] at h
  | succ n ih =>
      intro i st hbal hprev j row h
      have hnext : (stepState ctx i st).previousPaymentDate ≤
          adjustPaymentDate (scheduledDate ctx (i + 1)) := by
        rw [stepState_previousPaymentDate, amortStep_paymentDate]
        apply adjustPaymentDate_mono
        rw [scheduledDate_succ]
        omega
      have hnextbal : 0 ≤ (stepState ctx i st).currentBalance := by
        rw [stepState_currentBalance]
        exact amortStep_endingBalance_nonneg ctx i st
      rw [amortRows] at h
      split_ifs at h with hb
      · cases j with
        | zero =>
            simp only [List.getElem?_cons_zero, Option.some.injEq] at h
            subst h
            exact amortStep_inv ctx i st hrate hbal hprev
        | succ m => simp at h
      · cases j with
        | zero =>
            simp only [List.getElem?_cons_zero, Option.some.injEq] at h
            subst h
            exact amortStep_inv ctx i st hrate hbal hprev
        | succ m =>
            rw [List.getElem?_cons_succ] at h
            exact ih (i + 1) (stepState ctx i st) hnextbal hnext m row h

theorem paymentFrequencyDays_pos (p : ℕ) (hp1 : 1 ≤ p) (hp2 : p ≤ 365) :
    1 ≤ round ((365.25 : ℚ) / (p : ℚ)) := by
  have hp0 : (0 : ℚ) < (p : ℚ) := by positivity
  have hx : (1 : ℚ) ≤ 365.25 / (p : ℚ) := by
    rw [le_div_iff₀ hp0]
    calc (1 : ℚ) * (p : ℚ) = (p : ℚ) := by ring
    _ ≤ 365 := by exact_mod_cast hp2
    _ ≤ 365.25 := by norm_num
  rw [round_eq]
  have : ((1 : ℤ) : ℚ) ≤ 365.25 / (p : ℚ) + 1 / 2 := by
    push_cast
    linarith
  exact Int.le_floor.mpr this

theorem schedule_fst (powf : ℚ → ℚ → ℚ) (input : LoanInput) :
    (calculateAmortizationSchedule powf input).1 =
      amortRows (mkCtx powf input) (totalPaymentsOf input) 1 (initState input) := rfl

theorem summary_monthlyPayment (powf : ℚ → ℚ → ℚ) (input : LoanInput) :
    (calculateAmortizationSchedule powf input).2.monthlyPayment =
      (mkCtx powf input).monthlyPayment := rfl

theorem summary_totalInterest (powf : ℚ → ℚ → ℚ) (input : LoanInput) :
    (calculateAmortizationSchedule powf input).2.totalInterest =
      (amortFinal (mkCtx powf input) (totalPaymentsOf input) 1
        (initState input)).cumulativeInterest := rfl

theorem summary_totalPayments (powf : ℚ → ℚ → ℚ) (input : LoanInput) :
    (calculateAmortizationSchedule powf input).2.totalPayments =
      ((calculateAmortizationSchedule powf input).1.map
        PaymentRow.scheduledPayment).sum := rfl

theorem summary_numberOfPayments (powf : ℚ → ℚ → ℚ) (input : LoanInput) :
    (calculateAmortizationSchedule powf input).2.numberOfPayments =
      (calculateAmortizationSchedule powf input).1.length := rfl

/-- C3: evaluation of the code at the failing input, year 2024.  September
1, 2024 is a Sunday, so the first Monday of September 2024 is September 2;
the Labour Day entry the code produces (index 7 of the holiday list) is
September 8, 2024 — a Sunday, not the first Monday — and September 2 is
not in the holiday list at all, contradicting the source's own comment
that this entry is the first Monday of September. -/
theorem claim3_labour_day_eval :
    (getCanadianHolidays 2024)[7]! = daysFromCivil 2024 9 8 ∧
    getDay (daysFromCivil 2024 9 8) = 0 ∧
    getDay (daysFromCivil 2024 9 2) = 1 ∧
    (getCanadianHolidays 2024).contains (daysFromCivil 2024 9 2) = false ∧
    isCanadianHoliday (daysFromCivil 2024 9 2) = false := by
  decide

/-- C4: `calculateEaster` agrees with the spec's anonymous-Gauss
(Meeus/Jones/Butcher) algorithm for every year from 1583 on, and returns
the reference dates March 31 for 2024 and April 20 for 2025. -/
theorem claim4_easter_gauss :
    (∀ y : ℤ, 1583 ≤ y → calculateEaster y = meeusEaster y) ∧
    calculateEaster 2024 = daysFromCivil 2024 3 31 ∧
    calculateEaster 2025 = daysFromCivil 2025 4 20 := by
  refine ⟨?_, by decide, by decide⟩
  intro y hy
  simp only [calculateEaster, easterX, meeusEaster]
  have e1 : jsMod y 19 = y % 19 := jsMod_of_nonneg _ _ (by omega)
  have e2 : jsMod y 100 = y % 100 := jsMod_of_nonneg _ _ (by omega)
  have e3 : jsMod (y / 100) 4 = y / 100 % 4 := jsMod_of_nonneg _ _ (by omega)
  rw [e1, e2, e3]
  have e4 : jsMod (19 * (y % 19) + y / 100 - y / 100 / 4 -
      (y / 100 - (y / 100 + 8) / 25 + 1) / 3 + 15) 30 =
      (19 * (y % 19) + y / 100 - y / 100 / 4 -
      (y / 100 - (y / 100 + 8) / 25 + 1) / 3 + 15) % 30 :=
    jsMod_of_nonneg _ _ (by omega)
  rw [e4]
  have e5 : jsMod (y % 100) 4 = y % 100 % 4 := jsMod_of_nonneg _ _ (by omega)
  rw [e5]
  set h30 := (19 * (y % 19) + y / 100 - y / 100 / 4 -
    (y / 100 - (y / 100 + 8) / 25 + 1) / 3 + 15) % 30 with hh30
  have e6 : jsMod (32 + 2 * (y / 100 % 4) + 2 * (y % 100 / 4) - h30 - y % 100 % 4) 7 =
      (32 + 2 * (y / 100 % 4) + 2 * (y % 100 / 4) - h30 - y % 100 % 4) % 7 :=
    jsMod_of_nonneg _ _ (by omega)
  rw [e6]
  set l7 := (32 + 2 * (y / 100 % 4) + 2 * (y % 100 / 4) - h30 - y % 100 % 4) % 7 with hl7
  have e7 : jsMod (h30 + l7 - 7 * ((y % 19 + 11 * h30 + 22 * l7) / 451) + 114) 31 =
      (h30 + l7 - 7 * ((y % 19 + 11 * h30 + 22 * l7) / 451) + 114) % 31 :=
    jsMod_of_nonneg _ _ (by omega)
  rw [e7]

/-- C6: `adjustPaymentDate` returns business days unchanged; on a
non-business day it returns the first business day strictly after it
(every strictly intermediate day is non-business); and it is idempotent. -/
theorem claim6_adjust_payment_date (d : ℤ) :
    (isBusinessDay d = true → adjustPaymentDate d = d) ∧
    (isBusinessDay d = false →
      isBusinessDay (adjustPaymentDate d) = true ∧ d < adjustPaymentDate d ∧
      ∀ e, d < e → e < adjustPaymentDate d → isBusinessDay e = false) ∧
    adjustPaymentDate (adjustPaymentDate d) = adjustPaymentDate d := by
  refine ⟨adjustPaymentDate_eq_of_bday, ?_, adjustPaymentDate_idem d⟩
  intro hnb
  have hne : adjustPaymentDate d = getNextBusinessDay d := by
    unfold adjustPaymentDate
    rw [if_neg (by simp [hnb])]
  obtain ⟨hf, hb, hlt, hbtw⟩ := getNextBusinessDay_spec d
  rw [hne]
  exact ⟨hb, hlt, fun e he1 he2 => hbtw e he1 he2⟩

/-- C7: the forward day-by-day scan of `getNextBusinessDay` always
terminates: for every date the fueled model of the while loop finds a
business day (in fact within 401 days), so `adjustPaymentDate` always
returns a result. -/
theorem claim7_adjust_terminates (d : ℤ) :
    ∃ b : ℤ, findBDay 1000 (d + 1) = some b ∧ getNextBusinessDay d = b ∧
      isBusinessDay b = true ∧ d < b ∧ b ≤ d + 401 := by
  obtain ⟨hf, hb, hlt, hbtw⟩ := getNextBusinessDay_spec d
  refine ⟨getNextBusinessDay d, hf, rfl, hb, hlt, ?_⟩
  by_contra hgt
  push_neg at hgt
  obtain ⟨k, hk, hbk⟩ := exists_businessDay_near d
  have hfalse := hbtw (d + 1 + (k : ℤ)) (by omega) (by omega)
  rw [hfalse] at hbk
  exact Bool.false_ne_true hbk

/-- C8: for a non-empty schedule, the summary's total interest equals the
last row's cumulative interest, its total of payments is the sum of the
rows' scheduled payments, and its number of payments is the row count. -/
theorem claim8_summary_consistency (powf : ℚ → ℚ → ℚ) (input : LoanInput)
    (hne : (calculateAmortizationSchedule powf input).1 ≠ []) :
    (calculateAmortizationSchedule powf input).1.getLast?.isSome = true ∧
    (∀ row ∈ (calculateAmortizationSchedule powf input).1.getLast?,
      (calculateAmortizationSchedule powf input).2.totalInterest =
        row.cumulativeInterest) ∧
    (calculateAmortizationSchedule powf input).2.totalPayments =
      ((calculateAmortizationSchedule powf input).1.map
        PaymentRow.scheduledPayment).sum ∧
    (calculateAmortizationSchedule powf input).2.numberOfPayments =
      (calculateAmortizationSchedule powf input).1.length := by
  refine ⟨?_, ?_, rfl, rfl⟩
  · rw [List.getLast?_isSome]
    exact hne
  · intro row hrow
    rw [summary_totalInterest]
    apply amortFinal_cum
    rw [schedule_fst] at hrow
    exact hrow

/-- C9: with a zero annual rate the effective per-period rate is zero (for
any exponent function with `powf 1 q = 1`, as real exponentiation
satisfies), so `calculatePaymentAmount` takes the straight-line branch and
returns exactly `principal / totalPayments`; the annuity formula's zero
denominator is never evaluated. -/
theorem claim9_zero_rate (powf : ℚ → ℚ → ℚ)
    (principal totalPayments paymentsPerYear compoundingFrequency : ℚ)
    (_hP : 0 < principal) (_hn : 0 < totalPayments) (_hp : 0 < paymentsPerYear)
    (_hc : 0 < compoundingFrequency) (hpow1 : ∀ q : ℚ, powf 1 q = 1) :
    calculatePaymentAmount powf principal 0 totalPayments paymentsPerYear
      compoundingFrequency = principal / totalPayments := by
  unfold calculatePaymentAmount
  rw [show (1 : ℚ) + 0 / (100 * compoundingFrequency) = 1 by norm_num]
  rw [hpow1]
  rw [if_pos (show (1 : ℚ) - 1 = 0 by norm_num)]

/-- C10: the engine never reads `paymentType` or `rateTermMonths`: any two
inputs agreeing on the eight remaining fields (in particular two inputs
differing only in `paymentType`, or only in `rateTermMonths`) produce the
identical schedule and summary — every calculation behaves as
end-of-period. -/
theorem claim10_dead_inputs (powf : ℚ → ℚ → ℚ) (i1 i2 : LoanInput)
    (hL : i1.loanAmount = i2.loanAmount)
    (hR : i1.annualInterestRate = i2.annualInterestRate)
    (hA : i1.amortizationMonths = i2.amortizationMonths)
    (hP : i1.paymentsPerYear = i2.paymentsPerYear)
    (hS : i1.startDate = i2.startDate)
    (hF : i1.firstPaymentDate = i2.firstPaymentDate)
    (hM : i1.rateTermMaturityDate = i2.rateTermMaturityDate)
    (hC : i1.compoundingFrequency = i2.compoundingFrequency) :
    calculateAmortizationSchedule powf i1 = calculateAmortizationSchedule powf i2 := by
  cases i1
  cases i2
  simp only at hL hR hA hP hS hF hM hC
  subst hL hR hA hP hS hF hM hC
  simp only [calculateAmortizationSchedule, mkCtx, initState, totalPaymentsOf]

/-- C2: the fixed per-period payment used by the engine is
`calculatePaymentAmount` applied to the loan amount, rate, total payment
count, payments per year and compounding frequency, and (when the
effective rate is nonzero, as a positive rate gives under real
exponentiation, and `powf` agrees with iterated multiplication on
natural exponents) equals the annuity formula
`principal * effectiveRate * (1+effectiveRate)^n / ((1+effectiveRate)^n - 1)`
with `n = totalPayments = floor(amortizationMonths/12 * paymentsPerYear)`. -/
theorem claim2_payment_formula (powf : ℚ → ℚ → ℚ) (input : LoanInput)
    (_hL : 0 < input.loanAmount) (_hr : 0 < input.annualInterestRate)
    (_hp : 0 < input.paymentsPerYear) (_hc : 0 < input.compoundingFrequency)
    (_hn : 0 < totalPaymentsOf input)
    (hpow : ∀ (x : ℚ) (k : ℕ), powf x (k : ℚ) = x ^ k)
    (her : effectiveRateOf powf input ≠ 0) :
    (calculateAmortizationSchedule powf input).2.monthlyPayment =
      calculatePaymentAmount powf input.loanAmount input.annualInterestRate
        (totalPaymentsOf input : ℚ) (input.paymentsPerYear : ℚ)
        (input.compoundingFrequency : ℚ) ∧
    (calculateAmortizationSchedule powf input).2.monthlyPayment =
      input.loanAmount *
        (effectiveRateOf powf input *
          (1 + effectiveRateOf powf input) ^ totalPaymentsOf input) /
        ((1 + effectiveRateOf powf input) ^ totalPaymentsOf input - 1) := by
  refine ⟨rfl, ?_⟩
  rw [summary_monthlyPayment]
  simp only [mkCtx, calculatePaymentAmount]
  rw [hpow]
  unfold effectiveRateOf at her ⊢
  rw [if_neg her]

/-- C1 (amended): for every valid input, the schedule satisfies the
balance-chaining, date-monotonicity and termination invariants; the
unconditional claim that every ending balance is at most its beginning
balance is false (see the counterexample) and holds exactly for rows
whose principal payment is non-negative. -/
theorem claim1_schedule_invariants (powf : ℚ → ℚ → ℚ) (input : LoanInput)
    (hv : ValidLoanInput input) :
    scheduleProps (calculateAmortizationSchedule powf input).1
      (totalPaymentsOf input) := by
  obtain ⟨hv1, hv2, hv3, hv4, hv5, hv6, hv7, hv8, hv9, hv10, hv11, hv12,
    hv13, hv14⟩ := hv
  rw [schedule_fst]
  have hfreq : 1 ≤ (mkCtx powf input).paymentFrequencyDays :=
    paymentFrequencyDays_pos input.paymentsPerYear hv9 hv10
  have hrate : 0 ≤ (mkCtx powf input).annualInterestRate := by
    show 0 ≤ input.annualInterestRate
    linarith
  have hbal0 : 0 ≤ (initState input).currentBalance := by
    show 0 ≤ input.loanAmount
    linarith
  have hprev0 : (initState input).previousPaymentDate ≤
      adjustPaymentDate (scheduledDate (mkCtx powf input) 1) := by
    rw [scheduledDate_one]
    show input.startDate ≤ adjustPaymentDate (mkCtx powf input).firstPaymentDate
    exact le_trans hv13 (adjustPaymentDate_ge _)
  refine ⟨?_, ?_, ?_, ?_, ?_⟩
  · intro j r1 r2 h1 h2
    exact amortRows_chain (mkCtx powf input) (totalPaymentsOf input) 1
      (initState input) j r1 r2 h1 h2
  · intro j r1 r2 h1 h2
    obtain ⟨_, hd1⟩ := amortRows_getElem_spec (mkCtx powf input)
      (totalPaymentsOf input) 1 (initState input) j r1 h1
    obtain ⟨_, hd2⟩ := amortRows_getElem_spec (mkCtx powf input)
      (totalPaymentsOf input) 1 (initState input) (j + 1) r2 h2
    rw [hd1, hd2]
    apply adjustPaymentDate_mono
    rw [show 1 + (j + 1) = (1 + j) + 1 from by omega, scheduledDate_succ]
    omega
  · obtain ⟨hs1, hs2, hs3⟩ := amortRows_shape (mkCtx powf input)
      (totalPaymentsOf input) 1 (initState input)
    rcases eq_or_lt_of_le hs1 with heq | hlt
    · exact Or.inl heq
    · exact Or.inr ⟨hlt, hs2 hlt⟩
  · obtain ⟨hs1, hs2, hs3⟩ := amortRows_shape (mkCtx powf input)
      (totalPaymentsOf input) 1 (initState input)
    exact hs3
  · intro j row h hpp
    have hinv := amortRows_inv (mkCtx powf input) hrate (by omega)
      (totalPaymentsOf input) 1 (initState input) hbal0 hprev0 j row h
    exact hinv.2.2.2 hpp

/-- C5 (amended): for every valid input, every row's interest payment is
non-negative, and a row's principal payment is non-negative whenever the
fixed payment covers that row's interest (in particular on clamped/final
rows, which pay exactly the remaining balance); the unconditional claim
that every principal payment is non-negative is false (see the
counterexample): a row whose day-count interest exceeds the fixed payment
has a negative principal payment. -/
theorem claim5_nonneg_payments (powf : ℚ → ℚ → ℚ) (input : LoanInput)
    (hv : ValidLoanInput input) :
    (∀ row ∈ (calculateAmortizationSchedule powf input).1,
      0 ≤ row.interestPayment) ∧
    (∀ row ∈ (calculateAmortizationSchedule powf input).1,
      row.interestPayment ≤ (calculateAmortizationSchedule powf input).2.monthlyPayment →
      0 ≤ row.principalPayment) := by
  obtain ⟨hv1, hv2, hv3, hv4, hv5, hv6, hv7, hv8, hv9, hv10, hv11, hv12,
    hv13, hv14⟩ := hv
  have hfreq : 1 ≤ (mkCtx powf input).paymentFrequencyDays :=
    paymentFrequencyDays_pos input.paymentsPerYear hv9 hv10
  have hrate : 0 ≤ (mkCtx powf input).annualInterestRate := by
    show 0 ≤ input.annualInterestRate
    linarith
  have hbal0 : 0 ≤ (initState input).currentBalance := by
    show 0 ≤ input.loanAmount
    linarith
  have hprev0 : (initState input).previousPaymentDate ≤
      adjustPaymentDate (scheduledDate (mkCtx powf input) 1) := by
    rw [scheduledDate_one]
    show input.startDate ≤ adjustPaymentDate (mkCtx powf input).firstPaymentDate
    exact le_trans hv13 (adjustPaymentDate_ge _)
  constructor
  · intro row hrow
    rw [schedule_fst] at hrow
    obtain ⟨j, hj⟩ := List.mem_iff_getElem?.mp hrow
    exact (amortRows_inv (mkCtx powf input) hrate (by omega)
      (totalPaymentsOf input) 1 (initState input) hbal0 hprev0 j row hj).2.1
  · intro row hrow hle
    rw [schedule_fst] at hrow
    obtain ⟨j, hj⟩ := List.mem_iff_getElem?.mp hrow
    exact (amortRows_inv (mkCtx powf input) hrate (by omega)
      (totalPaymentsOf input) 1 (initState input) hbal0 hprev0 j row hj).2.2.1 hle

theorem amortStep_interestPayment (ctx : AmortCtx) (i : ℕ) (st : AmortState) :
    (amortStep ctx i st).interestPayment =
      st.currentBalance * (ctx.annualInterestRate / 100 / 365.25) *
        ((getDaysBetween st.previousPaymentDate
          (adjustPaymentDate (scheduledDate ctx i)) : ℤ) : ℚ) := rfl

theorem amortStep_principalPayment (ctx : AmortCtx) (i : ℕ) (st : AmortState) :
    (amortStep ctx i st).principalPayment =
      if i = ctx.total ∨
          ctx.monthlyPayment - (amortStep ctx i st).interestPayment > st.currentBalance
      then st.currentBalance
      else ctx.monthlyPayment - (amortStep ctx i st).interestPayment := rfl

theorem amortStep_endingBalance_eq (ctx : AmortCtx) (i : ℕ) (st : AmortState) :
    (amortStep ctx i st).endingBalance =
      max 0 (st.currentBalance - (amortStep ctx i st).principalPayment) := rfl

theorem amortRows_cons (ctx : AmortCtx) (r i : ℕ) (st : AmortState)
    (h : ¬((amortStep ctx i st).endingBalance ≤ 0.01)) :
    amortRows ctx (r + 1) i st =
      amortStep ctx i st :: amortRows ctx r (i + 1) (stepState ctx i st) := by
  rw [amortRows, if_neg h]

theorem cxInput_valid : ValidLoanInput cxInput := by
  simp only [ValidLoanInput, cxInput]
  refine ⟨by norm_num, by norm_num, by norm_num, by norm_num, by norm_num,
    by norm_num, by norm_num, by norm_num, by norm_num, by norm_num,
    by norm_num, by norm_num, by decide, by decide⟩

theorem cx_total : totalPaymentsOf cxInput = 2 := by
  simp only [totalPaymentsOf, cxInput]
  rw [show ((24 : ℕ) : ℚ) / 12 * ((1 : ℕ) : ℚ) = ((2 : ℤ) : ℚ) by push_cast; norm_num]
  rw [Int.floor_intCast]
  rfl

theorem cx_payment : (mkCtx ratPow cxInput).monthlyPayment = 78125 / 82 := by
  show calculatePaymentAmount ratPow cxInput.loanAmount cxInput.annualInterestRate
    (totalPaymentsOf cxInput : ℚ) (cxInput.paymentsPerYear : ℚ)
    (cxInput.compoundingFrequency : ℚ) = 78125 / 82
  rw [cx_total]
  simp only [cxInput]
  unfold calculatePaymentAmount
  rw [show (1 : ℚ) + 50 / (100 * ((2 : ℕ) : ℚ)) = 5 / 4 by push_cast; norm_num]
  rw [show ((2 : ℕ) : ℚ) / ((1 : ℕ) : ℚ) = ((2 : ℕ) : ℚ) by push_cast; norm_num]
  rw [ratPow_natCast]
  rw [if_neg (show ¬((5 / 4 : ℚ) ^ 2 - 1 = 0) by norm_num)]
  rw [show (1 : ℚ) + ((5 / 4 : ℚ) ^ 2 - 1) = 25 / 16 by norm_num]
  rw [ratPow_natCast]
  norm_num

theorem cx_sched1 : scheduledDate (mkCtx ratPow cxInput) 1 = daysFromCivil 2030 1 15 := by
  rw [scheduledDate_one]
  rfl

theorem cx_adj1 :
    adjustPaymentDate (daysFromCivil 2030 1 15) = daysFromCivil 2030 1 15 := by
  decide

theorem cx_days1 :
    getDaysBetween (initState cxInput).previousPaymentDate (daysFromCivil 2030 1 15) =
      2192 := by
  rw [getDaysBetween_eq]
  decide

theorem cx_interest :
    (amortStep (mkCtx ratPow cxInput) 1 (initState cxInput)).interestPayment =
      4384000 / 1461 := by
  rw [amortStep_interestPayment, cx_sched1, cx_adj1, cx_days1]
  show (1000 : ℚ) * ((50 : ℚ) / 100 / 365.25) * ((2192 : ℤ) : ℚ) = 4384000 / 1461
  push_cast
  norm_num

theorem cx_pp :
    (amortStep (mkCtx ratPow cxInput) 1 (initState cxInput)).principalPayment =
      -245347375 / 119802 := by
  rw [amortStep_principalPayment, cx_interest, cx_payment]
  rw [if_neg]
  · show (78125 : ℚ) / 82 - 4384000 / 1461 = -245347375 / 119802
    norm_num
  · push_neg
    constructor
    · intro hcontra
      have := cx_total
      rw [show (mkCtx ratPow cxInput).total = totalPaymentsOf cxInput from rfl] at hcontra
      omega
    · show (78125 : ℚ) / 82 - 4384000 / 1461 ≤ (initState cxInput).currentBalance
      show (78125 : ℚ) / 82 - 4384000 / 1461 ≤ 1000
      norm_num

theorem cx_ending :
    (amortStep (mkCtx ratPow cxInput) 1 (initState cxInput)).endingBalance =
      365149375 / 119802 := by
  rw [amortStep_endingBalance_eq, cx_pp]
  show max 0 ((1000 : ℚ) - (-245347375 / 119802)) = 365149375 / 119802
  rw [max_eq_right (by norm_num)]
  norm_num

theorem cx_rows :
    (calculateAmortizationSchedule ratPow cxInput).1 =
      amortStep (mkCtx ratPow cxInput) 1 (initState cxInput) ::
        amortRows (mkCtx ratPow cxInput) 1 2
          (stepState (mkCtx ratPow cxInput) 1 (initState cxInput)) := by
  rw [schedule_fst, cx_total]
  exact amortRows_cons (mkCtx ratPow cxInput) 1 1 (initState cxInput)
    (by rw [cx_ending]; norm_num)

theorem cx_er : effectiveRateOf ratPow cxInput = 9 / 16 := by
  unfold effectiveRateOf
  simp only [cxInput]
  rw [show (1 : ℚ) + 50 / (100 * ((2 : ℕ) : ℚ)) = 5 / 4 by push_cast; norm_num]
  rw [show ((2 : ℕ) : ℚ) / ((1 : ℕ) : ℚ) = ((2 : ℕ) : ℚ) by push_cast; norm_num]
  rw [ratPow_natCast]
  norm_num

theorem wInput_valid : ValidLoanInput wInput := by
  simp only [ValidLoanInput, wInput]
  refine ⟨by norm_num, by norm_num, by norm_num, by norm_num, by norm_num,
    by norm_num, by norm_num, by norm_num, by norm_num, by norm_num,
    by norm_num, by norm_num, by decide, by decide⟩

theorem w8_total : totalPaymentsOf w8Input = 1 := by
  simp only [totalPaymentsOf, w8Input]
  rw [show ((12 : ℕ) : ℚ) / 12 * ((1 : ℕ) : ℚ) = ((1 : ℤ) : ℚ) by push_cast; norm_num]
  rw [Int.floor_intCast]
  rfl

theorem w8_ne : (calculateAmortizationSchedule ratPow w8Input).1 ≠ [] := by
  rw [schedule_fst, w8_total]
  exact amortRows_ne_nil (mkCtx ratPow w8Input) 0 1 (initState w8Input)

/-- C1 counterexample: `cxInput` is a valid input (all fields within the
validation ranges, first payment date after start date), yet the first
schedule row's ending balance strictly exceeds its beginning balance, so
balances are not monotonically non-increasing as claimed. -/
theorem claim1_counterexample :
    ValidLoanInput cxInput ∧
    (calculateAmortizationSchedule ratPow cxInput).1[0]!.beginningBalance <
      (calculateAmortizationSchedule ratPow cxInput).1[0]!.endingBalance := by
  refine ⟨cxInput_valid, ?_⟩
  rw [cx_rows, List.getElem!_cons_zero, amortStep_beginningBalance, cx_ending]
  show (1000 : ℚ) < 365149375 / 119802
  norm_num

/-- C5 counterexample: on the valid input `cxInput` the first schedule
row's principal payment is negative (day-count interest exceeds the fixed
payment and the clamp does not trigger), refuting the claim that every
row's principal payment is non-negative. -/
theorem claim5_counterexample :
    ValidLoanInput cxInput ∧
    (calculateAmortizationSchedule ratPow cxInput).1[0]!.principalPayment < 0 := by
  refine ⟨cxInput_valid, ?_⟩
  rw [cx_rows, List.getElem!_cons_zero, cx_pp]
  norm_num

/-- C1 witness: the amended schedule invariants hold at the concrete
valid input `wInput`. -/
theorem claim1_witness :
    ValidLoanInput wInput ∧
    scheduleProps (calculateAmortizationSchedule ratPow wInput).1
      (totalPaymentsOf wInput) :=
  ⟨wInput_valid, claim1_schedule_invariants ratPow wInput wInput_valid⟩

/-- C5 witness: the amended non-negativity properties hold at the
concrete valid input `wInput`. -/
theorem claim5_witness :
    ValidLoanInput wInput ∧
    (∀ row ∈ (calculateAmortizationSchedule ratPow wInput).1,
      0 ≤ row.interestPayment) :=
  ⟨wInput_valid, (claim5_nonneg_payments ratPow wInput wInput_valid).1⟩

/-- C2 witness: at `cxInput` (positive fields, nonzero effective rate,
`ratPow` agreeing with iterated multiplication on natural exponents) the
engine's payment equals the annuity formula. -/
theorem claim2_witness :
    (calculateAmortizationSchedule ratPow cxInput).2.monthlyPayment =
      cxInput.loanAmount *
        (effectiveRateOf ratPow cxInput *
          (1 + effectiveRateOf ratPow cxInput) ^ totalPaymentsOf cxInput) /
        ((1 + effectiveRateOf ratPow cxInput) ^ totalPaymentsOf cxInput - 1) :=
  (claim2_payment_formula ratPow cxInput (by norm_num [cxInput])
    (by norm_num [cxInput]) (by norm_num [cxInput]) (by norm_num [cxInput])
    (by rw [cx_total]; norm_num) ratPow_natCast (by rw [cx_er]; norm_num)).2

/-- C4 witness: the source algorithm agrees with the spec's algorithm at
the year 2024. -/
theorem claim4_witness :
    (1583 : ℤ) ≤ 2024 ∧ calculateEaster 2024 = meeusEaster 2024 :=
  ⟨by norm_num, claim4_easter_gauss.1 2024 (by norm_num)⟩

/-- C6 witness: September 7, 2024 is a Saturday (not a business day) and
adjusting it produces a business day. -/
theorem claim6_witness :
    isBusinessDay (daysFromCivil 2024 9 7) = false ∧
    isBusinessDay (adjustPaymentDate (daysFromCivil 2024 9 7)) = true :=
  ⟨by decide, ((claim6_adjust_payment_date (daysFromCivil 2024 9 7)).2.1 (by decide)).1⟩

/-- C8 witness: the one-payment input `w8Input` has a non-empty schedule
and its summary row count equals the schedule length. -/
theorem claim8_witness :
    (calculateAmortizationSchedule ratPow w8Input).1 ≠ [] ∧
    (calculateAmortizationSchedule ratPow w8Input).2.numberOfPayments =
      (calculateAmortizationSchedule ratPow w8Input).1.length :=
  ⟨w8_ne, (claim8_summary_consistency ratPow w8Input w8_ne).2.2.2⟩

/-- C9 witness: zero rate on a concrete input gives exactly
`principal / totalPayments`. -/
theorem claim9_witness :
    calculatePaymentAmount ratPow 1000 0 4 12 2 = 1000 / 4 :=
  claim9_zero_rate ratPow 1000 4 12 2 (by norm_num) (by norm_num) (by norm_num)
    (by norm_num) ratPow_one

/-- C10 witness: concrete inputs differing only in `paymentType`
(respectively only in `rateTermMonths`) produce identical results. -/
theorem claim10_witness :
    calculateAmortizationSchedule ratPow w10a = calculateAmortizationSchedule ratPow w10b ∧
    calculateAmortizationSchedule ratPow w10a = calculateAmortizationSchedule ratPow w10c :=
  ⟨claim10_dead_inputs ratPow w10a w10b rfl rfl rfl rfl rfl rfl rfl rfl,
   claim10_dead_inputs ratPow w10a w10c rfl rfl rfl rfl rfl rfl rfl rfl⟩
